import Mathlib

/-!
Verification development for the parallelproof repository.

The Python source is shallowly embedded: strings are `List Char` (wrapped in
`String` at the interfaces), numbers are `Rat` (Python floats are only ever
produced here from decimal literals in strings, which `Rat` represents
exactly), fallible operations return `Except`, and effectful procedures are
modelled as pure functions from explicit oracles (the values returned by the
external calls) to the value returned plus the list of performed effects.
-/

namespace ParallelProof

/-! ## Character and string helpers (embedding of the Python string methods) -/

/-- Maximal leading run of decimal digits of a character list, plus the rest. -/
def takeDigits : List Char → List Char × List Char
  | [] => ([], [])
  | c :: cs =>
    if c.isDigit then
      let r := takeDigits cs
      (c :: r.1, r.2)
    else ([], c :: cs)

/-- Numeric value of a digit run, as `int(run)` would compute it. -/
def digitsVal (ds : List Char) : Nat :=
  ds.foldl (fun a c => a * 10 + (c.toNat - ('0').toNat)) 0

/-- Value of `float("<ds>.<fs>")` for digit runs `ds` and `fs`. -/
def numVal (ds fs : List Char) : Rat :=
  (digitsVal ds : Rat) + (digitsVal fs : Rat) / (10 : Rat) ^ fs.length

/-- Does `text` start with `pat`? (embeds Python `str.startswith`). -/
def leadsWith : List Char → List Char → Bool
  | [], _ => true
  | _ :: _, [] => false
  | p :: ps, t :: ts => p == t && leadsWith ps ts

/-- Substring containment, embedding Python `pat in text` for strings. -/
def containsSub (pat : List Char) : List Char → Bool
  | [] => pat.isEmpty
  | t :: ts => leadsWith pat (t :: ts) || containsSub pat ts

/-- Python `\s` whitespace characters. -/
def isWsCh (c : Char) : Bool :=
  c == ' ' || c == '\t' || c == '\n' || c == '\r' || c == '\x0b' || c == '\x0c'

/-- Drop leading regex `\s*` whitespace. -/
def skipWs (l : List Char) : List Char := l.dropWhile isWsCh

/-- Is the first character of `l` equal to `ch`? -/
def headIs (l : List Char) (ch : Char) : Bool :=
  match l with
  | [] => false
  | x :: _ => x == ch

/-- Embedding of `str.lower` (ASCII, which covers every character the parser
inspects). -/
def toLowerL (l : List Char) : List Char := l.map Char.toLower

/-! ## Regex searches used by `AgentOptimizer._parse_improvement` -/

/-- Embedding of `re.search(r"(\d+(?:\.\d+)?)", s)`: value of the leftmost run
of digits, greedily extended by a decimal part when one follows. -/
def findFirstNum : List Char → Option Rat
  | [] => none
  | c :: cs =>
    if c.isDigit then
      let p := takeDigits (c :: cs)
      match p.2 with
      | '.' :: r2 =>
        let f := takeDigits r2
        if f.1.isEmpty then some ((digitsVal p.1 : Rat)) else some (numVal p.1 f.1)
      | _ => some ((digitsVal p.1 : Rat))
    else findFirstNum cs

/-- One attempt of `re.search(r"(\d+(?:\.\d+)?)\s*x", s)` at a position that
starts with a digit: the regex needs the digit run, an optional decimal part,
then `\s*` and a literal `x`; backtracking inside the runs can never help,
because a shortened run leaves a digit in a place where `.`, whitespace or
`x` is required. -/
def tryNumX (l : List Char) : Option Rat :=
  let p := takeDigits l
  if p.1.isEmpty then none
  else
    match p.2 with
    | '.' :: r2 =>
      let f := takeDigits r2
      if f.1.isEmpty then none
      else if headIs (skipWs f.2) 'x' then some (numVal p.1 f.1) else none
    | rest => if headIs (skipWs rest) 'x' then some ((digitsVal p.1 : Rat)) else none

/-- Embedding of `re.search(r"(\d+(?:\.\d+)?)\s*x", s)`: leftmost match. -/
def findNumX : List Char → Option Rat
  | [] => none
  | c :: cs =>
    if c.isDigit then
      match tryNumX (c :: cs) with
      | some q => some q
      | none => findNumX cs
    else findNumX cs

/-- Value of the first digit run (optionally with a decimal part) that is
immediately followed by a literal `%`. This is the rule the specification
states for the percentage format; it is compared against the code's actual
behaviour. -/
def firstNumThenPct : List Char → Option Rat
  | [] => none
  | c :: cs =>
    if c.isDigit then
      let p := takeDigits (c :: cs)
      let attempt : Option Rat :=
        match p.2 with
        | '.' :: r2 =>
          let f := takeDigits r2
          if !f.1.isEmpty && headIs f.2 '%' then some (numVal p.1 f.1) else none
        | rest => if headIs rest '%' then some ((digitsVal p.1 : Rat)) else none
      match attempt with
      | some q => some q
      | none => firstNumThenPct cs
    else firstNumThenPct cs

/-! ## Python values, truthiness, and the improvement parser -/

/-- The Python values that can reach `_parse_improvement` and the agent's
result-normalisation code. -/
inductive PyVal where
  | vstr (s : String)
  | vnum (q : Rat)
  | vnone
  | vdict (fields : List (String × PyVal))
  | vlist (items : List PyVal)

/-- Python truthiness of a value. -/
def pyTruthy : PyVal → Bool
  | .vstr s => !s.isEmpty
  | .vnum q => q != 0
  | .vnone => false
  | .vdict d => !d.isEmpty
  | .vlist l => !l.isEmpty

/-- Embedding of `needle in v` for a string needle: substring test on a
string, key membership on a dict, element equality on a list, and a
`TypeError` on a number or `None`. -/
def pyIn (needle : String) : PyVal → Except Unit Bool
  | .vstr s => .ok (containsSub needle.data s.data)
  | .vdict d => .ok (d.any fun p => p.1 == needle)
  | .vlist l =>
    .ok (l.any fun x =>
      match x with
      | .vstr t => t == needle
      | _ => false)
  | _ => .error ()

/-- The complexity-phrase rule of `_parse_improvement` (applied to the
lowered string). -/
def complexityRule (ls : List Char) : Rat :=
  if containsSub ("o(".data) ls then
    if containsSub ("n²".data) ls || containsSub ("n^2".data) ls then
      if containsSub ("n log n".data) ls then 50
      else if containsSub ("o(n)".data) ls then 75
      else 0
    else 0
  else 0

/-- The multiplier and complexity rules of `_parse_improvement`, reached when
the percentage rule did not return (applied to the lowered string). -/
def strCascade (ls : List Char) : Rat :=
  if containsSub ("x".data) ls then
    match findNumX ls with
    | some q => (q - 1) * 100
    | none => complexityRule ls
  else complexityRule ls

/-- Body of `AgentOptimizer._parse_improvement` inside its `try`: the
percentage check, then the multiplier check, then the complexity check, with
the `TypeError`/`AttributeError` raised by the string operations on a
non-string argument surfacing as `Except.error`. -/
def parseBody (v : PyVal) : Except Unit Rat :=
  match pyIn "%" v with
  | .error _ => .error ()
  | .ok true =>
    match v with
    | .vstr s =>
      match findFirstNum s.data with
      | some q => .ok q
      | none => .ok (strCascade (toLowerL s.data))
    | _ => .error ()
  | .ok false =>
    match v with
    | .vstr s => .ok (strCascade (toLowerL s.data))
    | _ => .error ()

/-- `AgentOptimizer._parse_improvement`: the body wrapped in the
`try/except` that turns any internal error into `0.0`. -/
def parseImprovement (v : PyVal) : Rat :=
  match parseBody v with
  | .ok q => q
  | .error _ => 0

/-- The percentage rule fires: the string contains a `%` and some digit run
(anywhere). -/
abbrev pctMatches (s : String) : Prop :=
  containsSub ("%".data) s.data = true ∧ (findFirstNum s.data).isSome = true

/-- The multiplier rule fires on the lowered string. -/
abbrev multMatches (s : String) : Prop :=
  containsSub ("x".data) (toLowerL s.data) = true
    ∧ (findNumX (toLowerL s.data)).isSome = true

/-- The complexity-phrase rule fires on the lowered string. -/
abbrev complexMatches (s : String) : Prop :=
  containsSub ("o(".data) (toLowerL s.data) = true
    ∧ (containsSub ("n²".data) (toLowerL s.data) = true
        ∨ containsSub ("n^2".data) (toLowerL s.data) = true)
    ∧ (containsSub ("n log n".data) (toLowerL s.data) = true
        ∨ containsSub ("o(n)".data) (toLowerL s.data) = true)

/-! ## Agent result dictionaries and the coordinator's winner selection -/

/-- The dictionary an agent run hands back to the coordinator.  A completed
run carries `improvement_percent` (`improvement := some _`); a failed run
carries `error` (`errMsg := some _`) and no improvement key. -/
structure ResDict where
  agentId : String
  strategy : String
  status : String
  improvement : Option Rat
  errMsg : Option String
  optCode : Option PyVal
  explanation : Option PyVal
  category : Option String

/-- `result.get('improvement_percent', 0)`. -/
def impOf (r : ResDict) : Rat := r.improvement.getD 0

/-- The winner-selection loop of `run_optimization`: iterate over the
results, keeping the first result whose status is `'completed'` and whose
improvement strictly exceeds the best seen so far, starting from `-1`. -/
def selGo : Option ResDict → Rat → List ResDict → Option ResDict × Rat
  | best, bimp, [] => (best, bimp)
  | best, bimp, r :: rs =>
    if r.status = "completed" ∧ bimp < impOf r then selGo (some r) (impOf r) rs
    else selGo best bimp rs

/-- Winner selection of `run_optimization` (`best_result` after the loop). -/
def selectBest (rs : List ResDict) : Option ResDict := (selGo none (-1) rs).1

/-! ## The Task Coordinator (`run_optimization`) as a trace-producing model -/

/-- One element of `asyncio.gather(..., return_exceptions=True)`. -/
inductive Outcome where
  | exc (msg : String)
  | res (r : ResDict)

/-- Events pushed through the Broadcast Hub by the coordinator. -/
inductive Event where
  | taskStarted (numAgents : Nat)
  | forksCreated (count requested : Nat)
  | agentCompleted (r : ResDict)
  | complete (total succ : Nat) (best : Option ResDict)
  | errorEv (msg : String)

/-- Observable actions of one `run_optimization` run, in program order.
`agentDone` records the real-time order in which agents finish inside the
`gather`; a database action appears only when the statement succeeded. -/
inductive Act where
  | dbSetStatus (s : String)
  | bcast (e : Event)
  | provisionForks (n : Nat)
  | agentStart (i : Nat) (forkId : String)
  | agentDone (i : Nat)
  | dbFetchBestId (agentId : String)
  | releaseFork (f : String)

/-- Oracle for one `run_optimization` run: what each external call returns.
`forkIds` is the list `create_parallel_forks` hands back (it never raises),
`agentOutcome i` the `gather` slot of agent `i` (submission order),
`finishOrder` the real-time order in which the agents finished, and the
`…Ok` flags whether the corresponding database statement succeeded. -/
structure CoordOracle where
  updRunningOk : Bool
  forkIds : List String
  agentOutcome : Nat → Outcome
  finishOrder : List Nat
  fetchBestOk : Bool
  updCompleteOk : Bool
  updFailedOk : Bool

/-- The `successful_results` list: non-exception outcomes in submission
order. -/
def successResults (o : CoordOracle) : List ResDict :=
  ((List.range o.forkIds.length).map o.agentOutcome).filterMap fun oc =>
    match oc with
    | .res r => some r
    | .exc _ => none

/-- The `try` block of `run_optimization`: the actions it performs, plus the
message of the exception that aborted it, if any. -/
def tryBody (o : CoordOracle) (numAgents : Nat) : List Act × Option String :=
  if o.updRunningOk = false then ([], some "db error: update running")
  else
    let t0 : List Act :=
      [.dbSetStatus "running", .bcast (.taskStarted numAgents), .provisionForks numAgents]
    if o.forkIds = [] then (t0, some "Failed to create any forks")
    else
      let t2 :=
        t0 ++ [.bcast (.forksCreated o.forkIds.length numAgents)]
          ++ o.forkIds.enum.map (fun p => Act.agentStart p.1 p.2)
          ++ o.finishOrder.map Act.agentDone
      let succ := successResults o
      let t3 := t2 ++ succ.map fun r => Act.bcast (.agentCompleted r)
      match selectBest succ with
      | some w =>
        if o.fetchBestOk = false then (t3, some "db error: fetch best id")
        else
          let t4 := t3 ++ [.dbFetchBestId w.agentId]
          if o.updCompleteOk = false then (t4, some "db error: update completed")
          else
            (t4 ++ [.dbSetStatus "completed",
                    .bcast (.complete o.forkIds.length succ.length (some w))]
                ++ o.forkIds.map Act.releaseFork, none)
      | none =>
        if o.updCompleteOk = false then (t3, some "db error: update completed")
        else
          (t3 ++ [.dbSetStatus "completed",
                  .bcast (.complete o.forkIds.length succ.length none)]
              ++ o.forkIds.map Act.releaseFork, none)

/-- `run_optimization`: the `try` block, then — when it aborted — the
`except` handler, which persists status `'failed'` and broadcasts the error
(nothing more happens if even that update statement raises). -/
def runOpt (o : CoordOracle) (numAgents : Nat) : List Act :=
  match tryBody o numAgents with
  | (t, none) => t
  | (t, some m) =>
    if o.updFailedOk then t ++ [.dbSetStatus "failed", .bcast (.errorEv m)] else t

/-- The last successfully persisted task status of a trace. -/
def finalStatus (t : List Act) : Option String :=
  (t.filterMap fun a =>
    match a with
    | .dbSetStatus s => some s
    | _ => none).getLast?

/-- Is this action a release of an environment? -/
def isRelease : Act → Bool
  | .releaseFork _ => true
  | _ => false

/-- Is this action the construction/run of an agent? -/
def isAgentStart : Act → Bool
  | .agentStart _ _ => true
  | _ => false

/-- Is this action the broadcast of an `error` event? -/
def isErrorBcast : Act → Bool
  | .bcast (.errorEv _) => true
  | _ => false

/-- Agent ids of the `agent_completed` events of a trace, in emission
order. -/
def emittedIds (t : List Act) : List String :=
  t.filterMap fun a =>
    match a with
    | .bcast (.agentCompleted r) => some r.agentId
    | _ => none

/-- Project a trace to its agent-finish actions and `agent_completed`
broadcasts: `Sum.inl i` for the finish of agent `i`, `Sum.inr id` for the
broadcast of the result of agent `id`. -/
def tagOf : Act → Option (Sum Nat String)
  | .agentDone i => some (Sum.inl i)
  | .bcast (.agentCompleted r) => some (Sum.inr r.agentId)
  | _ => none

/-- Emission order the claim asserts: results in the order their agents
finished (exceptions skipped). -/
def claimedEmission (o : CoordOracle) : List String :=
  o.finishOrder.filterMap fun i =>
    match o.agentOutcome i with
    | .res r => some r.agentId
    | .exc _ => none

/-! ## The Retrieval Engine's Reciprocal Rank Fusion (`hybrid_search`) -/

/-- The RRF contribution `1 / (k + rank)` with `k = 60`. -/
def rrfScore (rank : Nat) : Rat := 1 / (60 + (rank : Rat))

/-- Add `add` to the score stored for id `pid` (the
`combined[id]['rrf_score'] += …` branch; dict order is unchanged). -/
def updAdd (acc : List (Nat × Rat)) (pid : Nat) (add : Rat) : List (Nat × Rat) :=
  acc.map fun q => if q.1 = pid then (q.1, q.2 + add) else q

/-- Is id `pid` already a key of the accumulator? -/
def hasKey (acc : List (Nat × Rat)) (pid : Nat) : Bool := acc.any fun q => q.1 == pid

/-- Process one vector-search row `(id, rank)`: accumulate into an existing
entry, else append a new entry (dict insertion order). -/
def fuseStep (acc : List (Nat × Rat)) (p : Nat × Nat) : List (Nat × Rat) :=
  if hasKey acc p.1 then updAdd acc p.1 (rrfScore p.2) else acc ++ [(p.1, rrfScore p.2)]

/-- The `combined` dict of `hybrid_search`, keyed by pattern id in insertion
order: the BM25 rows first, then the vector rows folded in. -/
def fuseRRF (lex vec : List (Nat × Nat)) : List (Nat × Rat) :=
  vec.foldl fuseStep (lex.map fun p => (p.1, rrfScore p.2))

/-- Stable insertion of one entry into a list sorted by score descending:
the entry goes before the first strictly smaller score, i.e. after every
earlier entry with an equal score — exactly where Python's stable
`sorted(..., reverse=True)` keeps it. -/
def insDesc (x : Nat × Rat) : List (Nat × Rat) → List (Nat × Rat)
  | [] => [x]
  | y :: ys => if y.2 ≤ x.2 then x :: y :: ys else y :: insDesc x ys

/-- Embedding of `sorted(combined.values(), key=rrf_score, reverse=True)`
(stable, descending). -/
def sortDesc : List (Nat × Rat) → List (Nat × Rat)
  | [] => []
  | x :: xs => insDesc x (sortDesc xs)

/-- The fused, sorted, truncated ranking `hybrid_search` returns (patterns
abstracted to their ids, paired with their fused score). -/
def hybridRank (lex vec : List (Nat × Nat)) (limit : Nat) : List (Nat × Rat) :=
  (sortDesc (fuseRRF lex vec)).take limit

/-- The RRF contribution of one ranked list to id `pid`: `1/(60+rank)` when
the list contains `pid`, else `0`. -/
def contrib (l : List (Nat × Nat)) (pid : Nat) : Rat :=
  match l.find? (fun p => p.1 == pid) with
  | some p => rrfScore p.2
  | none => 0

/-- Score stored for id `pid` in a fused accumulator. -/
def keyLook (acc : List (Nat × Rat)) (pid : Nat) : Option Rat :=
  (acc.find? (fun q => q.1 == pid)).map fun q => q.2

/-- Is `pid` among the ids of a ranked list? -/
def keyMem (l : List (Nat × Nat)) (pid : Nat) : Bool := l.any fun p => p.1 == pid

/-! ## The Broadcast Hub (`ConnectionManager`) -/

/-- The `active_connections` dict: task id to the list of subscribed
websockets (websockets are numbered). -/
abbrev Registry := List (String × List Nat)

/-- Dict lookup `active_connections[task_id]` / `task_id in …`. -/
def lookupTask (st : Registry) (tid : String) : Option (List Nat) :=
  (st.find? fun p => p.1 == tid).map fun p => p.2

/-- Replace the list stored under an existing task id (in-place mutation of
the dict value: key order unchanged). -/
def setTask (st : Registry) (tid : String) (l : List Nat) : Registry :=
  st.map fun p => if p.1 = tid then (tid, l) else p

/-- `del active_connections[task_id]`. -/
def eraseTask (st : Registry) (tid : String) : Registry :=
  st.filter fun p => !(p.1 == tid)

/-- Python `list.remove`: drop the first occurrence, or fail with
`ValueError` (`none`) when the element is absent. -/
def removeFirst : List Nat → Nat → Option (List Nat)
  | [], _ => none
  | x :: xs, w => if x == w then some xs else (removeFirst xs w).map fun r => x :: r

/-- The mutation step of `ConnectionManager.disconnect` once the task id was
found: `list.remove` (raising `ValueError`, modelled as `Except.error`, when
the websocket is not subscribed), pruning the task id when its list becomes
empty. -/
def removeStep (st : Registry) (tid : String) (ws : Nat) (l : List Nat) :
    Except Unit Registry :=
  match removeFirst l ws with
  | none => .error ()
  | some l2 => .ok (if l2.isEmpty then eraseTask st tid else setTask st tid l2)

/-- `ConnectionManager.disconnect`: a no-op when the task id is unknown,
else the removal step. -/
def disconnect (st : Registry) (ws : Nat) (tid : String) : Except Unit Registry :=
  match lookupTask st tid with
  | none => .ok st
  | some l => removeStep st tid ws l

/-- The delivery loop of `ConnectionManager.broadcast` over the subscribers
of the task: send to every subscriber (`sendOk w` tells whether the send to
websocket `w` succeeded), then disconnect each failed subscriber.  Returns
the new registry and the list of websockets that received the message. -/
def deliverAll (st : Registry) (tid : String) (sendOk : Nat → Bool)
    (conns : List Nat) : Except Unit (Registry × List Nat) :=
  let delivered := conns.filter sendOk
  let failed := conns.filter fun w => !(sendOk w)
  (failed.foldlM (fun s w => disconnect s w tid) st).map fun s2 => (s2, delivered)

/-- `ConnectionManager.broadcast`: nothing happens when the task id has no
entry, else the delivery loop runs. -/
def broadcastM (st : Registry) (tid : String) (sendOk : Nat → Bool) :
    Except Unit (Registry × List Nat) :=
  match lookupTask st tid with
  | none => .ok (st, [])
  | some conns => deliverAll st tid sendOk conns

/-! ## The Agent (`AgentOptimizer.optimize`) -/

/-- One retrieval pattern as consumed by `_build_context` (`None` models a
missing key). -/
structure Pattern where
  pname : Option String
  descr : Option String
  codeExample : Option String

/-- One strategy catalog entry (name, category tag, instruction template). -/
structure AgentStrategy where
  sname : String
  category : String
  template : String

/-- `str.format(code=code)` on a template: `{code}` is replaced by the
argument and doubled braces are unescaped. -/
def pyFormatL (code : List Char) : List Char → List Char
  | [] => []
  | '{' :: '{' :: rest => '{' :: pyFormatL code rest
  | '}' :: '}' :: rest => '}' :: pyFormatL code rest
  | '{' :: 'c' :: 'o' :: 'd' :: 'e' :: '}' :: rest => code ++ pyFormatL code rest
  | c :: rest => c :: pyFormatL code rest

/-- `template.format(code=code)`. -/
def pyFormat (template code : String) : String :=
  String.mk (pyFormatL code.data template.data)

/-- `AgentOptimizer._build_context`: numbered list of the retrieved
patterns, empty string when there are none. -/
def buildContext (ps : List Pattern) : String :=
  if ps.isEmpty then ""
  else
    String.intercalate "\n" <|
      ps.enum.map fun ip =>
        toString (ip.1 + 1) ++ ". " ++ ip.2.pname.getD "Unknown" ++ ": "
          ++ ip.2.descr.getD "" ++ "\n   Example: " ++ ip.2.codeExample.getD "N/A"

/-- The prompt the agent sends: the rendered strategy template, prefixed by
the context block when that block is non-empty. -/
def agentPrompt (strat : AgentStrategy) (code : String) (ps : List Pattern) : String :=
  let ctx := buildContext ps
  let p0 := pyFormat strat.template code
  if ctx = "" then p0
  else "Context - Similar optimization patterns:\n" ++ ctx ++ "\n\n" ++ p0

/-- Step 5 of `optimize`: if the generation call returned a list, take its
first element when that element is a dict, else wrap `str(result)`
(`rendered`) into a minimal dict with zero improvement. -/
def normalizeGem (v : PyVal) (rendered : String) : PyVal :=
  match v with
  | .vlist (PyVal.vdict d :: _) => .vdict d
  | .vlist _ =>
    .vdict [("optimized_code", .vstr rendered),
            ("explanation", .vstr "Wrapped list result"),
            ("improvement", .vstr "0%")]
  | w => w

/-- `d.get(k)`: the stored value, `None` when the key is absent. -/
def dictGet (d : List (String × PyVal)) (k : String) : PyVal :=
  match d.find? fun p => p.1 == k with
  | some p => p.2
  | none => .vnone

/-- `d.get(k, dflt)`. -/
def dictGetD (d : List (String × PyVal)) (k : String) (dflt : PyVal) : PyVal :=
  match d.find? fun p => p.1 == k with
  | some p => p.2
  | none => dflt

/-- Python `a or b or … or dflt`: the first truthy value. -/
def firstTruthy : List PyVal → PyVal → PyVal
  | [], dflt => dflt
  | x :: xs, dflt => if pyTruthy x then x else firstTruthy xs dflt

/-- Oracle for one agent run: the retrieved patterns, the generation
backend's response as a function of the prompt, the rendering `str(result)`
used when wrapping a non-record list, and whether each of the two insert
statements succeeds (`insCompletedErr` is the message of the completed-row
insert's exception). -/
structure AgentOracle where
  patterns : List Pattern
  gem : String → Except String PyVal
  rendered : String
  insCompletedOk : Bool
  insCompletedErr : String
  insFailedOk : Bool

/-- Effects of one agent run, in program order (insert actions appear only
when the statement succeeded). -/
inductive AgentEff where
  | searchCall (query cat : String)
  | gemCall (prompt : String)
  | insCompleted (imp : Rat)
  | insFailed (err : String)

/-- The `except` path of `optimize`: best-effort insert of a failed row
(silently skipped if that insert raises too), then the failed result
descriptor. -/
def failReturn (aid : String) (strat : AgentStrategy) (e : String)
    (effs : List AgentEff) (o : AgentOracle) : ResDict × List AgentEff :=
  ({agentId := aid, strategy := strat.sname, status := "failed",
    improvement := none, errMsg := some e, optCode := none,
    explanation := none, category := none},
   effs ++ if o.insFailedOk then [.insFailed e] else [])

/-- `AgentOptimizer.optimize`: retrieval, context/prompt construction,
generation call, defensive normalisation, improvement-field extraction and
parsing, persistence of the completed row, and the result descriptor — with
every exception (generation failure, `.get` on a non-dict response, or
failure of the completed-row insert) diverted to the `except` path. -/
def optimize (aid : String) (strat : AgentStrategy) (code : String)
    (o : AgentOracle) : ResDict × List AgentEff :=
  let query := String.mk (code.data.take 500)
  let pr := agentPrompt strat code o.patterns
  let effs0 : List AgentEff := [.searchCall query strat.category, .gemCall pr]
  match o.gem pr with
  | .error e => failReturn aid strat e effs0 o
  | .ok gv =>
    match normalizeGem gv o.rendered with
    | .vdict d =>
      let rawImp :=
        firstTruthy
          [dictGet d "improvement", dictGet d "complexity_improvement",
           dictGet d "memory_savings", dictGet d "concurrency_improvement"]
          (.vstr "0%")
      let imp := parseImprovement rawImp
      if o.insCompletedOk then
        ({agentId := aid, strategy := strat.sname, status := "completed",
          improvement := some imp, errMsg := none,
          optCode := some (dictGet d "optimized_code"),
          explanation := some (dictGetD d "explanation" (.vstr "")),
          category := some strat.category},
         effs0 ++ [.insCompleted imp])
      else failReturn aid strat o.insCompletedErr effs0 o
    | _ => failReturn aid strat "AttributeError: object has no attribute get" effs0 o

/-- Did this agent effect persist a completed row? -/
def isInsCompleted : AgentEff → Bool
  | .insCompleted _ => true
  | _ => false

/-- Did this agent effect persist a failed row? -/
def isInsFailed : AgentEff → Bool
  | .insFailed _ => true
  | _ => false

/-! ## Example inputs used by the claim theorems -/

/-- A completed agent result with a given id and improvement. -/
def mkRes (i : String) (q : Option Rat) (st : String) : ResDict :=
  {agentId := i, strategy := "s", status := st, improvement := q, errMsg := none,
   optCode := none, explanation := none, category := none}

/-- A coordinator run where one fork is obtained, the single agent completes
with improvement `40`, and the `SELECT id FROM agent_results` lookup of the
winner raises. -/
def oracleLeak : CoordOracle :=
  {updRunningOk := true, forkIds := ["main-0"],
   agentOutcome := fun _ => .res (mkRes "agent-0" (some 40) "completed"),
   finishOrder := [0], fetchBestOk := false, updCompleteOk := true,
   updFailedOk := true}

/-- A coordinator run with two agents that both complete, where agent 1
finishes before agent 0 in real time. -/
def oracleSwap : CoordOracle :=
  {updRunningOk := true, forkIds := ["main-0", "main-1"],
   agentOutcome := fun i =>
     .res (mkRes (match i with | 0 => "agent-0" | _ => "agent-1")
       (some (match i with | 0 => 40 | _ => 50)) "completed"),
   finishOrder := [1, 0], fetchBestOk := true, updCompleteOk := true,
   updFailedOk := true}

/-- A coordinator run in which provisioning obtained zero environments. -/
def oracleNoForks : CoordOracle :=
  {updRunningOk := true, forkIds := [],
   agentOutcome := fun _ => .exc "unused", finishOrder := [],
   fetchBestOk := true, updCompleteOk := true, updFailedOk := true}

/-- Agent-result list used to exercise the winner selection. -/
def demoResults : List ResDict :=
  [mkRes "a" (some 30) "completed", mkRes "b" (some 30) "completed",
   mkRes "c" (some 45) "completed", mkRes "d" (some (-5)) "completed",
   mkRes "e" none "failed"]

/-- The lexical ranked list `{A:1, B:2}` of the specification's RRF example,
with `A = 0`, `B = 1`, `C = 2`. -/
def lexDemo : List (Nat × Nat) := [(0, 1), (1, 2)]

/-- The vector ranked list `{B:1, C:2}` of the specification's RRF example. -/
def vecDemo : List (Nat × Nat) := [(1, 1), (2, 2)]

/-- A strategy used by the agent examples (template content is irrelevant to
the claims). -/
def stratDemo : AgentStrategy :=
  {sname := "Hash Map Optimization", category := "data_structures",
   template := "Replace nested loops with hash map lookups: {code}"}

/-- An agent run whose generation call succeeds with improvement `40%` but
whose completed-row insert raises. -/
def oracleInsFail : AgentOracle :=
  {patterns := [], rendered := "",
   gem := fun _ => .ok (.vdict [("improvement", .vstr "40%"),
                               ("optimized_code", .vstr "SELECT 1"),
                               ("explanation", .vstr "added index")]),
   insCompletedOk := false, insCompletedErr := "db connection lost",
   insFailedOk := true}

/-! ## Shared lemmas about the winner-selection loop -/

theorem selGo_isSome (rs : List ResDict) :
    ∀ (w : ResDict) (b : Rat), ∃ v, (selGo (some w) b rs).1 = some v := by
  induction rs with
  | nil => intro w b; exact ⟨w, rfl⟩
  | cons r rs ih =>
    intro w b
    by_cases h : r.status = "completed" ∧ b < impOf r
    · simp only [selGo]; rw [if_pos h]; exact ih r (impOf r)
    · simp only [selGo]; rw [if_neg h]; exact ih w b

theorem selGo_char (rs : List ResDict) :
    ∀ (w v : ResDict), (selGo (some w) (impOf w) rs).1 = some v →
      (v = w ∧ ∀ r ∈ rs, r.status = "completed" → impOf r ≤ impOf w)
      ∨ (∃ l1 l2, rs = l1 ++ v :: l2 ∧ v.status = "completed" ∧ impOf w < impOf v
          ∧ (∀ r ∈ l1, r.status = "completed" → impOf r < impOf v)
          ∧ (∀ r ∈ l2, r.status = "completed" → impOf r ≤ impOf v)) := by
  induction rs with
  | nil =>
    intro w v h
    simp only [selGo] at h
    exact Or.inl ⟨(Option.some.inj h).symm, by simp⟩
  | cons r rs ih =>
    intro w v h
    simp only [selGo] at h
    by_cases hq : r.status = "completed" ∧ impOf w < impOf r
    · rw [if_pos hq] at h
      rcases ih r v h with ⟨hv, hall⟩ | ⟨l1, l2, heq, hc, hlt, h1, h2⟩
      · subst hv
        exact Or.inr ⟨[], rs, rfl, hq.1, hq.2, by simp, hall⟩
      · refine Or.inr ⟨r :: l1, l2, by rw [heq]; rfl, hc, lt_trans hq.2 hlt, ?_, h2⟩
        intro x hx hcx
        rcases List.mem_cons.mp hx with hx | hx
        · subst hx; exact hlt
        · exact h1 x hx hcx
    · rw [if_neg hq] at h
      rcases ih w v h with ⟨hv, hall⟩ | ⟨l1, l2, heq, hc, hlt, h1, h2⟩
      · refine Or.inl ⟨hv, ?_⟩
        intro x hx hcx
        rcases List.mem_cons.mp hx with hx | hx
        · subst hx
          by_contra hgt
          exact hq ⟨hcx, lt_of_not_le hgt⟩
        · exact hall x hx hcx
      · refine Or.inr ⟨r :: l1, l2, by rw [heq]; rfl, hc, hlt, ?_, h2⟩
        intro x hx hcx
        rcases List.mem_cons.mp hx with hx | hx
        · subst hx
          have hle : impOf x ≤ impOf w := by
            by_contra hgt
            exact hq ⟨hcx, lt_of_not_le hgt⟩
          exact lt_of_le_of_lt hle hlt
        · exact h1 x hx hcx

/-! ## C2: winner selection -/

/-- C2 (counterexample): the claim says no winner is recorded when every
completed result has improvement `0`, but the selection loop of
`run_optimization` starts its running best at `-1`, so a single completed
result with improvement `0` is recorded as the winner. -/
theorem c2_zero_improvement_wins_counterexample :
    selectBest [mkRes "a" (some 0) "completed"] = some (mkRes "a" (some 0) "completed")
      ∧ (mkRes "a" (some 0) "completed").status = "completed"
      ∧ impOf (mkRes "a" (some 0) "completed") = 0 := by
  refine ⟨?_, rfl, rfl⟩
  simp only [selectBest, selGo]
  rw [if_pos ⟨rfl, by norm_num [impOf, mkRes]⟩]

/-- C2 (amended): the winner selection considers only results with status
`completed` and improvement strictly greater than `-1` (not `0` as claimed:
the running best starts at `-1`), picks the one with the strictly greatest
improvement with ties broken by the first-encountered in iteration order,
and records no winner exactly when no completed result has improvement
greater than `-1`. -/
theorem c2_winner_selection (rs : List ResDict) :
    (selectBest rs = none ↔ ∀ r ∈ rs, ¬(r.status = "completed" ∧ -1 < impOf r))
    ∧ (∀ w, selectBest rs = some w →
        w.status = "completed" ∧ -1 < impOf w
        ∧ (∃ l1 l2, rs = l1 ++ w :: l2
            ∧ ∀ r ∈ l1, r.status = "completed" → impOf r < impOf w)
        ∧ ∀ r ∈ rs, r.status = "completed" → impOf r ≤ impOf w) := by
  induction rs with
  | nil => exact ⟨by simp [selectBest, selGo], by simp [selectBest, selGo]⟩
  | cons r rs ih =>
    by_cases hq : r.status = "completed" ∧ -1 < impOf r
    · have hsel : selectBest (r :: rs) = (selGo (some r) (impOf r) rs).1 := by
        simp only [selectBest, selGo]; rw [if_pos hq]
      constructor
      · rw [hsel]
        obtain ⟨v, hv⟩ := selGo_isSome rs r (impOf r)
        constructor
        · intro h; rw [hv] at h; cases h
        · intro h; exact absurd hq (h r (List.mem_cons_self r rs))
      · intro w h
        rw [hsel] at h
        rcases selGo_char rs r w h with ⟨hv, hall⟩ | ⟨l1, l2, heq, hc, hlt, h1, h2⟩
        · subst hv
          refine ⟨hq.1, hq.2, ⟨[], rs, rfl, by simp⟩, ?_⟩
          intro x hx hcx
          rcases List.mem_cons.mp hx with hx | hx
          · subst hx; exact le_refl _
          · exact hall x hx hcx
        · refine ⟨hc, lt_trans hq.2 hlt, ⟨r :: l1, l2, by rw [heq]; rfl, ?_⟩, ?_⟩
          · intro x hx hcx
            rcases List.mem_cons.mp hx with hx | hx
            · subst hx; exact hlt
            · exact h1 x hx hcx
          · intro x hx hcx
            rcases List.mem_cons.mp hx with hx | hx
            · subst hx; exact le_of_lt hlt
            · rw [heq] at hx
              rcases List.mem_append.mp hx with hx | hx
              · exact le_of_lt (h1 x hx hcx)
              · rcases List.mem_cons.mp hx with hx | hx
                · subst hx; exact le_refl _
                · exact h2 x hx hcx
    · have hsel : selectBest (r :: rs) = selectBest rs := by
        simp only [selectBest, selGo]; rw [if_neg hq]
      constructor
      · rw [hsel, ih.1]
        constructor
        · intro h x hx
          rcases List.mem_cons.mp hx with hx | hx
          · subst hx; exact hq
          · exact h x hx
        · intro h x hx; exact h x (List.mem_cons_of_mem r hx)
      · intro w h
        rw [hsel] at h
        obtain ⟨hcw, hw1, ⟨l1, l2, heq, h1⟩, hall⟩ := ih.2 w h
        refine ⟨hcw, hw1, ⟨r :: l1, l2, by rw [heq]; rfl, ?_⟩, ?_⟩
        · intro x hx hcx
          rcases List.mem_cons.mp hx with hx | hx
          · subst hx
            have hle : impOf x ≤ -1 := by
              by_contra hgt
              exact hq ⟨hcx, lt_of_not_le hgt⟩
            exact lt_of_le_of_lt hle hw1
          · exact h1 x hx hcx
        · intro x hx hcx
          rcases List.mem_cons.mp hx with hx | hx
          · subst hx
            have hle : impOf x ≤ -1 := by
              by_contra hgt
              exact hq ⟨hcx, lt_of_not_le hgt⟩
            exact le_of_lt (lt_of_le_of_lt hle hw1)
          · exact hall x hx hcx

/-- C2 (witness): on the demo list the selection cannot be empty, because
result `c` is completed with improvement `45 > -1`. -/
theorem c2_winner_selection_witness : selectBest demoResults ≠ none := by
  intro h
  have := (c2_winner_selection demoResults).1.mp h
    (mkRes "c" (some 45) "completed")
    (by simp [demoResults])
  exact this ⟨rfl, by norm_num [impOf, mkRes]⟩

/-! ## C3 and C7: the improvement parser -/

theorem complexityRule_eq_zero (ls : List Char)
    (h : ¬(containsSub ("o(".data) ls = true
        ∧ (containsSub ("n²".data) ls = true ∨ containsSub ("n^2".data) ls = true)
        ∧ (containsSub ("n log n".data) ls = true ∨ containsSub ("o(n)".data) ls = true))) :
    complexityRule ls = 0 := by
  unfold complexityRule
  split_ifs with h1 h2 h3 h4
  · exact absurd ⟨h1, Bool.or_eq_true _ _ |>.mp h2, Or.inl h3⟩ h
  · exact absurd ⟨h1, Bool.or_eq_true _ _ |>.mp h2, Or.inr h4⟩ h
  · rfl
  · rfl
  · rfl

theorem strCascade_eq_zero (ls : List Char)
    (hm : ¬(containsSub ("x".data) ls = true ∧ (findNumX ls).isSome = true))
    (hc : ¬(containsSub ("o(".data) ls = true
        ∧ (containsSub ("n²".data) ls = true ∨ containsSub ("n^2".data) ls = true)
        ∧ (containsSub ("n log n".data) ls = true ∨ containsSub ("o(n)".data) ls = true))) :
    strCascade ls = 0 := by
  unfold strCascade
  split_ifs with h1
  · cases hf : findNumX ls with
    | some q => exact absurd ⟨h1, by rw [hf]; rfl⟩ hm
    | none => simp only [hf]; exact complexityRule_eq_zero ls hc
  · exact complexityRule_eq_zero ls hc

/-- C3 (counterexample): the claim says the parser returns the first digit
run that is immediately followed by `%`, but on
`"after 3 loops, 40% better"` the code returns `3` — the first digit run
anywhere in the string — while the run followed by `%` is `40`. -/
theorem c3_first_number_counterexample :
    parseImprovement (.vstr "after 3 loops, 40% better") = 3
    ∧ firstNumThenPct ("after 3 loops, 40% better").data = some 40
    ∧ (3 : Rat) ≠ 40 := by
  refine ⟨by decide, by decide, by norm_num⟩

/-- C3 (amended): when the input contains a `%` anywhere, the parser returns
the numeric value of the first digit run in the string (optionally with a
decimal part), regardless of where the `%` stands; `"40% reduction"` still
yields `40` because `40` is also the first digit run. -/
theorem c3_percent_rule (s : String) (q : Rat)
    (hp : containsSub ("%".data) s.data = true)
    (hf : findFirstNum s.data = some q) :
    parseImprovement (.vstr s) = q := by
  simp [parseImprovement, parseBody, pyIn, hp, hf]

/-- C3 (witness): the percentage example of the claim. -/
theorem c3_percent_rule_witness :
    containsSub ("%".data) ("40% reduction").data = true
    ∧ findFirstNum ("40% reduction").data = some 40
    ∧ parseImprovement (.vstr "40% reduction") = 40 :=
  ⟨by decide, by decide, c3_percent_rule "40% reduction" 40 (by decide) (by decide)⟩

/-- C7: the parser is a total function on every Python value (the
`try/except` maps every internal error — in particular the `TypeError` or
`AttributeError` raised by the string operations on every non-string
input — to `0.0`), and it returns `0.0` on any string on which none of the
percentage, multiplier, or complexity rules fires. -/
theorem c7_parser_never_raises (v : PyVal) :
    ((∃ e, parseBody v = .error e) → parseImprovement v = 0)
    ∧ ((∀ s, v ≠ PyVal.vstr s) → parseImprovement v = 0)
    ∧ (∀ s, v = PyVal.vstr s → ¬pctMatches s → ¬multMatches s → ¬complexMatches s →
        parseImprovement v = 0) := by
  refine ⟨?_, ?_, ?_⟩
  · rintro ⟨e, he⟩
    simp [parseImprovement, he]
  · intro hns
    cases v with
    | vstr s => exact absurd rfl (hns s)
    | vnum q => rfl
    | vnone => rfl
    | vdict d =>
      cases hb : d.any fun p => p.1 == "%" <;>
        simp [parseImprovement, parseBody, pyIn, hb]
    | vlist l =>
      cases hb : l.any fun x => match x with | .vstr t => t == "%" | _ => false <;>
        simp [parseImprovement, parseBody, pyIn, hb]
  · intro s hv hp hm hc
    subst hv
    have hm2 : ¬(containsSub ("x".data) (toLowerL s.data) = true
        ∧ (findNumX (toLowerL s.data)).isSome = true) := hm
    have hc2 : ¬(containsSub ("o(".data) (toLowerL s.data) = true
        ∧ (containsSub ("n²".data) (toLowerL s.data) = true
            ∨ containsSub ("n^2".data) (toLowerL s.data) = true)
        ∧ (containsSub ("n log n".data) (toLowerL s.data) = true
            ∨ containsSub ("o(n)".data) (toLowerL s.data) = true)) := hc
    cases hpc : containsSub ("%".data) s.data with
    | true =>
      cases hf : findFirstNum s.data with
      | some q => exact absurd ⟨hpc, by rw [hf]; rfl⟩ hp
      | none =>
        simp only [parseImprovement, parseBody, pyIn, hpc, hf]
        exact strCascade_eq_zero _ hm2 hc2
    | false =>
      simp only [parseImprovement, parseBody, pyIn, hpc]
      exact strCascade_eq_zero _ hm2 hc2

/-- C7 (witness): a non-matching string and a non-string value both parse to
`0.0`. -/
theorem c7_parser_never_raises_witness :
    parseImprovement (.vstr "no improvement data") = 0
    ∧ parseImprovement .vnone = 0 :=
  ⟨(c7_parser_never_raises (.vstr "no improvement data")).2.2 _ rfl
      (by decide) (by decide) (by decide),
   (c7_parser_never_raises .vnone).2.1 fun s h => PyVal.noConfusion h⟩

/-! ## C1, C6, C9: the Task Coordinator -/

theorem filterMap_tagOf_agentDone (l : List Nat) :
    List.filterMap (tagOf ∘ Act.agentDone) l = l.map Sum.inl := by
  induction l with
  | nil => rfl
  | cons x xs ih => simp [tagOf, Function.comp, ih]

theorem filterMap_tagOf_agentCompleted (l : List ResDict) :
    List.filterMap (tagOf ∘ fun r => Act.bcast (Event.agentCompleted r)) l
      = l.map fun r => Sum.inr r.agentId := by
  induction l with
  | nil => rfl
  | cons x xs ih => simp [tagOf, Function.comp, ih]

theorem filterMap_tagOf_agentStart (l : List (Nat × String)) :
    List.filterMap (tagOf ∘ fun p => Act.agentStart p.1 p.2) l = [] := by
  induction l with
  | nil => rfl
  | cons x xs ih => simp [tagOf, Function.comp, ih]

theorem filterMap_tagOf_release (l : List String) :
    List.filterMap (tagOf ∘ Act.releaseFork) l = [] := by
  induction l with
  | nil => rfl
  | cons x xs ih => simp [tagOf, Function.comp, ih]

/-- C1 (code_bug evidence): with one obtained fork and a completed agent
result, a failure of the winner-id lookup (`SELECT id FROM agent_results`)
diverts `run_optimization` to its `except` handler, which never calls
`cleanup_forks`: the trace releases zero environments even though one fork
was obtained, contradicting the claimed release-on-every-path guarantee. -/
theorem c1_no_release_on_failure_path :
    oracleLeak.forkIds = ["main-0"]
    ∧ (runOpt oracleLeak 1).countP isRelease = 0
    ∧ finalStatus (runOpt oracleLeak 1) = some "failed" :=
  ⟨rfl, by decide, by decide⟩

/-- C6: when provisioning returns zero environments, `run_optimization`
raises `"Failed to create any forks"`; the handler persists status
`'failed'` and broadcasts exactly one error event, and no agent is
constructed or run. -/
theorem c6_zero_forks_fails_task (o : CoordOracle) (n : Nat)
    (h1 : o.updRunningOk = true) (h2 : o.forkIds = []) (h3 : o.updFailedOk = true) :
    finalStatus (runOpt o n) = some "failed"
    ∧ (runOpt o n).countP isErrorBcast = 1
    ∧ (runOpt o n).countP isAgentStart = 0 := by
  have htr : runOpt o n
      = [.dbSetStatus "running", .bcast (.taskStarted n), .provisionForks n,
         .dbSetStatus "failed", .bcast (.errorEv "Failed to create any forks")] := by
    simp [runOpt, tryBody, h1, h2, h3]
  rw [htr]
  refine ⟨rfl, ?_, ?_⟩ <;> simp [List.countP_cons, isErrorBcast, isAgentStart]

/-- C6 (witness): the concrete zero-fork run. -/
theorem c6_zero_forks_fails_task_witness :
    finalStatus (runOpt oracleNoForks 3) = some "failed"
    ∧ (runOpt oracleNoForks 3).countP isErrorBcast = 1
    ∧ (runOpt oracleNoForks 3).countP isAgentStart = 0 :=
  c6_zero_forks_fails_task oracleNoForks 3 rfl rfl rfl

/-- C9 (counterexample): with two completed agents that finish in the order
`[1, 0]`, the code still emits the `agent_completed` events in submission
order `[agent-0, agent-1]` (the `gather` result list), not in completion
order — the claim's asserted emission order is refuted. -/
theorem c9_emission_order_counterexample :
    emittedIds (runOpt oracleSwap 2) = ["agent-0", "agent-1"]
    ∧ claimedEmission oracleSwap = ["agent-1", "agent-0"]
    ∧ emittedIds (runOpt oracleSwap 2) ≠ claimedEmission oracleSwap :=
  ⟨by decide, by decide, by decide⟩

/-- C9 (amended): every `agent_completed` event is emitted only after every
agent has finished (the coordinator joins all agents with a single `gather`
before broadcasting), and the events appear in submission order — one per
non-exception outcome — regardless of the real-time completion order. -/
theorem c9_events_after_join_in_submission_order (o : CoordOracle) (n : Nat)
    (h1 : o.updRunningOk = true) (h2 : o.forkIds ≠ []) :
    (runOpt o n).filterMap tagOf
      = o.finishOrder.map Sum.inl
        ++ (successResults o).map fun r => Sum.inr r.agentId := by
  simp only [runOpt, tryBody, h1]
  rw [if_neg (by simp), if_neg h2]
  rcases hsel : selectBest (successResults o) with _ | w <;>
    rcases h4 : o.fetchBestOk with _ | _ <;>
    rcases h5 : o.updCompleteOk with _ | _ <;>
    rcases h6 : o.updFailedOk with _ | _ <;>
    simp [List.filterMap_append, filterMap_tagOf_agentDone,
      filterMap_tagOf_agentCompleted, filterMap_tagOf_agentStart,
      filterMap_tagOf_release, tagOf]

/-- C9 (witness): the amended ordering at the concrete two-agent run. -/
theorem c9_events_after_join_witness :
    (runOpt oracleSwap 2).filterMap tagOf
      = oracleSwap.finishOrder.map Sum.inl
        ++ (successResults oracleSwap).map fun r => Sum.inr r.agentId :=
  c9_events_after_join_in_submission_order oracleSwap 2 rfl (by decide)

/-! ## C5: Reciprocal Rank Fusion -/

theorem keyLook_cons (q : Nat × Rat) (acc : List (Nat × Rat)) (pid : Nat) :
    keyLook (q :: acc) pid = if q.1 = pid then some q.2 else keyLook acc pid := by
  by_cases h : q.1 = pid
  · rw [if_pos h]
    unfold keyLook
    rw [List.find?_cons_of_pos _ (by simp [h])]
    rfl
  · rw [if_neg h]
    unfold keyLook
    rw [List.find?_cons_of_neg _ (by simp [h])]

theorem keyLook_append (acc l2 : List (Nat × Rat)) (pid : Nat) :
    keyLook (acc ++ l2) pid =
      match keyLook acc pid with
      | some s => some s
      | none => keyLook l2 pid := by
  induction acc with
  | nil => rfl
  | cons q acc ih =>
    rw [List.cons_append, keyLook_cons, keyLook_cons]
    by_cases hq : q.1 = pid <;> simp [hq, ih]

theorem keyLook_updAdd_hit (acc : List (Nat × Rat)) (pid : Nat) (add s : Rat)
    (h : keyLook acc pid = some s) :
    keyLook (updAdd acc pid add) pid = some (s + add) := by
  induction acc with
  | nil => cases h
  | cons q acc ih =>
    rw [keyLook_cons] at h
    unfold updAdd
    simp only [List.map_cons]
    by_cases hq : q.1 = pid
    · rw [if_pos hq] at h
      rw [if_pos hq, keyLook_cons, if_pos hq]
      rw [Option.some.inj h]
    · rw [if_neg hq] at h
      rw [if_neg hq, keyLook_cons, if_neg hq]
      exact ih h

theorem keyLook_updAdd_ne (acc : List (Nat × Rat)) (k pid : Nat) (add : Rat)
    (h : ¬ k = pid) : keyLook (updAdd acc k add) pid = keyLook acc pid := by
  induction acc with
  | nil => rfl
  | cons q acc ih =>
    unfold updAdd
    simp only [List.map_cons]
    by_cases hq : q.1 = k
    · have hqp : ¬ q.1 = pid := by rw [hq]; exact h
      rw [if_pos hq, keyLook_cons, keyLook_cons, if_neg hqp, if_neg hqp]
      exact ih
    · rw [if_neg hq, keyLook_cons, keyLook_cons]
      by_cases hqp : q.1 = pid
      · rw [if_pos hqp, if_pos hqp]
      · rw [if_neg hqp, if_neg hqp]
        exact ih

theorem contrib_cons (p : Nat × Nat) (l : List (Nat × Nat)) (pid : Nat) :
    contrib (p :: l) pid = if p.1 = pid then rrfScore p.2 else contrib l pid := by
  by_cases h : p.1 = pid
  · rw [if_pos h]
    unfold contrib
    rw [List.find?_cons_of_pos _ (by simp [h])]
  · rw [if_neg h]
    unfold contrib
    rw [List.find?_cons_of_neg _ (by simp [h])]

theorem keyMem_cons (p : Nat × Nat) (l : List (Nat × Nat)) (pid : Nat) :
    keyMem (p :: l) pid = ((p.1 == pid) || keyMem l pid) := by
  simp [keyMem]

theorem keyMem_eq_mem (l : List (Nat × Nat)) (pid : Nat) :
    keyMem l pid = true ↔ pid ∈ l.map Prod.fst := by
  constructor
  · intro h
    obtain ⟨q, hq1, hq2⟩ := List.any_eq_true.mp h
    exact List.mem_map.mpr ⟨q, hq1, by simpa using hq2⟩
  · intro h
    obtain ⟨q, hq1, hq2⟩ := List.mem_map.mp h
    exact List.any_eq_true.mpr ⟨q, hq1, by simp [hq2]⟩

theorem contrib_eq_zero_of_not_keyMem (l : List (Nat × Nat)) (pid : Nat)
    (h : keyMem l pid = false) : contrib l pid = 0 := by
  induction l with
  | nil => rfl
  | cons p l ih =>
    rw [keyMem_cons, Bool.or_eq_false_iff] at h
    rw [contrib_cons, if_neg (by simpa using h.1)]
    exact ih h.2

theorem hasKey_eq_keyLook_isSome (acc : List (Nat × Rat)) (pid : Nat) :
    hasKey acc pid = (keyLook acc pid).isSome := by
  induction acc with
  | nil => rfl
  | cons q acc ih =>
    rw [keyLook_cons]
    by_cases hq : q.1 = pid
    · simp [hasKey, hq]
    · simp only [hasKey, List.any_cons] at ih ⊢
      rw [if_neg hq, ih]
      simp [hq]

theorem fuse_foldl_keyLook (vec : List (Nat × Nat)) :
    ∀ (acc : List (Nat × Rat)) (pid : Nat), (vec.map Prod.fst).Nodup →
      keyLook (vec.foldl fuseStep acc) pid =
        match keyLook acc pid with
        | some s => some (s + contrib vec pid)
        | none => if keyMem vec pid then some (contrib vec pid) else none := by
  induction vec with
  | nil =>
    intro acc pid _
    cases h : keyLook acc pid <;> simp [contrib, keyMem, h]
  | cons p vec ih =>
    intro acc pid hnd
    rw [List.map_cons] at hnd
    have hnd2 : (vec.map Prod.fst).Nodup := (List.nodup_cons.mp hnd).2
    have hhead : p.1 ∉ vec.map Prod.fst := (List.nodup_cons.mp hnd).1
    rw [List.foldl_cons, ih (fuseStep acc p) pid hnd2]
    by_cases hp : p.1 = pid
    · subst hp
      have hkm : keyMem vec p.1 = false :=
        Bool.eq_false_iff.mpr fun hk => hhead ((keyMem_eq_mem vec p.1).mp hk)
      have hcv : contrib vec p.1 = 0 := contrib_eq_zero_of_not_keyMem vec p.1 hkm
      cases hacc : keyLook acc p.1 with
      | some s =>
        have hstep : keyLook (fuseStep acc p) p.1 = some (s + rrfScore p.2) := by
          unfold fuseStep
          rw [if_pos (by rw [hasKey_eq_keyLook_isSome, hacc]; rfl)]
          exact keyLook_updAdd_hit acc p.1 (rrfScore p.2) s hacc
        simp [hstep, hacc, contrib_cons, hcv, add_assoc]
      | none =>
        have hstep : keyLook (fuseStep acc p) p.1 = some (rrfScore p.2) := by
          unfold fuseStep
          rw [if_neg (by rw [hasKey_eq_keyLook_isSome, hacc]; simp)]
          rw [keyLook_append, hacc]
          simp [keyLook_cons]
        simp [hstep, hacc, contrib_cons, keyMem_cons, hcv]
    · have hstep : keyLook (fuseStep acc p) pid = keyLook acc pid := by
        unfold fuseStep
        by_cases hk : hasKey acc p.1 = true
        · rw [if_pos hk]
          exact keyLook_updAdd_ne acc p.1 pid (rrfScore p.2) hp
        · rw [if_neg hk, keyLook_append]
          cases hacc : keyLook acc pid with
          | some s => rfl
          | none => simp [keyLook_cons, hp, keyLook]
      rw [hstep, contrib_cons, if_neg hp, keyMem_cons]
      have : (p.1 == pid) = false := by simpa using hp
      rw [this, Bool.false_or]

theorem base_keyLook (lex : List (Nat × Nat)) (pid : Nat) :
    keyLook (lex.map fun p => (p.1, rrfScore p.2)) pid
      = if keyMem lex pid then some (contrib lex pid) else none := by
  induction lex with
  | nil => rfl
  | cons p lex ih =>
    rw [List.map_cons, keyLook_cons, contrib_cons, keyMem_cons]
    by_cases hp : p.1 = pid
    · simp [hp]
    · have : (p.1 == pid) = false := by simpa using hp
      simp [if_neg hp, this, ih]

theorem insDesc_perm (x : Nat × Rat) (l : List (Nat × Rat)) :
    List.Perm (insDesc x l) (x :: l) := by
  induction l with
  | nil => exact List.Perm.refl _
  | cons y ys ih =>
    unfold insDesc
    by_cases h : y.2 ≤ x.2
    · rw [if_pos h]
    · rw [if_neg h]
      exact List.Perm.trans (List.Perm.cons y ih) (List.Perm.swap x y ys)

theorem mem_insDesc (x z : Nat × Rat) (l : List (Nat × Rat))
    (h : z ∈ insDesc x l) : z = x ∨ z ∈ l := by
  have := (insDesc_perm x l).mem_iff.mp h
  simpa using this

theorem sorted_insDesc (x : Nat × Rat) (l : List (Nat × Rat))
    (h : l.Pairwise fun a b => b.2 ≤ a.2) :
    (insDesc x l).Pairwise fun a b => b.2 ≤ a.2 := by
  induction l with
  | nil => simp [insDesc]
  | cons y ys ih =>
    rcases List.pairwise_cons.mp h with ⟨hy, hys⟩
    unfold insDesc
    by_cases hle : y.2 ≤ x.2
    · rw [if_pos hle]
      refine List.pairwise_cons.mpr ⟨?_, h⟩
      intro z hz
      rcases List.mem_cons.mp hz with hz | hz
      · subst hz; exact hle
      · exact le_trans (hy z hz) hle
    · rw [if_neg hle]
      refine List.pairwise_cons.mpr ⟨?_, ih hys⟩
      intro z hz
      rcases mem_insDesc x z ys hz with hz | hz
      · subst hz; exact le_of_lt (lt_of_not_le hle)
      · exact hy z hz

theorem sortDesc_perm (l : List (Nat × Rat)) : List.Perm (sortDesc l) l := by
  induction l with
  | nil => exact List.Perm.refl _
  | cons x xs ih =>
    exact List.Perm.trans (insDesc_perm x (sortDesc xs)) (List.Perm.cons x ih)

theorem sortDesc_sorted (l : List (Nat × Rat)) :
    (sortDesc l).Pairwise fun a b => b.2 ≤ a.2 := by
  induction l with
  | nil => simp [sortDesc]
  | cons x xs ih => exact sorted_insDesc x (sortDesc xs) ih

/-- C5 (counterexample): in the specification's own example the fused score
of `B` (lexical rank 2, vector rank 1) is `1/62 + 1/61`, not the claimed
`1/61 + 1/60`. -/
theorem c5_example_score_counterexample :
    keyLook (fuseRRF lexDemo vecDemo) 1 = some (1/62 + 1/61)
    ∧ (1/62 + 1/61 : Rat) ≠ 1/61 + 1/60 := by
  constructor
  · have hfused : fuseRRF lexDemo vecDemo = [(0, 1/61), (1, 123/3782), (2, 1/62)] := by
      norm_num [lexDemo, vecDemo, fuseRRF, fuseStep, hasKey, updAdd, rrfScore]
    have hlook : keyLook [(0, (1 : Rat)/61), (1, 123/3782), (2, 1/62)] 1
        = some (123/3782) := rfl
    rw [hfused, hlook]
    norm_num
  · norm_num

/-- C5 (amended): the fusion assigns each id the score `Σ 1/(60 + rank)`
over the lists containing it (accumulating both contributions for an id in
both lists), and the returned ranking is sorted by fused score descending
and is a permutation of the fused map; on the example with lexical ranks
`{A:1, B:2}` and vector ranks `{B:1, C:2}` the fused order is `B` first with
score `1/61 + 1/62` (not `1/61 + 1/60` as claimed), then `A` with `1/61`,
then `C` with `1/62`. -/
theorem c5_rrf_fusion (lex vec : List (Nat × Nat)) (lim : Nat)
    (_hlex : (lex.map Prod.fst).Nodup) (hvec : (vec.map Prod.fst).Nodup) :
    (∀ pid, keyLook (fuseRRF lex vec) pid =
        if keyMem lex pid || keyMem vec pid
        then some (contrib lex pid + contrib vec pid) else none)
    ∧ (hybridRank lex vec lim).Pairwise (fun a b => b.2 ≤ a.2)
    ∧ List.Perm (sortDesc (fuseRRF lex vec)) (fuseRRF lex vec)
    ∧ hybridRank lexDemo vecDemo 3 = [(1, 1/61 + 1/62), (0, 1/61), (2, 1/62)] := by
  refine ⟨?_, ?_, sortDesc_perm _, ?_⟩
  · intro pid
    unfold fuseRRF
    rw [fuse_foldl_keyLook vec _ pid hvec, base_keyLook lex pid]
    cases hkm : keyMem lex pid with
    | true => simp
    | false =>
      have : contrib lex pid = 0 := contrib_eq_zero_of_not_keyMem lex pid hkm
      simp [this]
  · exact List.Pairwise.sublist (List.take_sublist lim _) (sortDesc_sorted _)
  · have hfused : fuseRRF lexDemo vecDemo = [(0, 1/61), (1, 123/3782), (2, 1/62)] := by
      norm_num [lexDemo, vecDemo, fuseRRF, fuseStep, hasKey, updAdd, rrfScore]
    have hsort : sortDesc [(0, (1 : Rat)/61), (1, 123/3782), (2, 1/62)]
        = [(1, 123/3782), (0, 1/61), (2, 1/62)] := by
      norm_num [sortDesc, insDesc]
    unfold hybridRank
    rw [hfused, hsort]
    norm_num

/-- C5 (witness): the fused score of `A` in the example equals the sum of
its contributions. -/
theorem c5_rrf_fusion_witness :
    keyLook (fuseRRF lexDemo vecDemo) 0
      = some (contrib lexDemo 0 + contrib vecDemo 0) := by
  rw [(c5_rrf_fusion lexDemo vecDemo 3 (by decide) (by decide)).1 0,
    if_pos (by decide : (keyMem lexDemo 0 || keyMem vecDemo 0) = true)]

/-! ## C8 and C10: the Broadcast Hub -/

theorem lookupTask_cons (p : String × List Nat) (st : Registry) (tid : String) :
    lookupTask (p :: st) tid = if p.1 = tid then some p.2 else lookupTask st tid := by
  by_cases h : p.1 = tid
  · rw [if_pos h]
    unfold lookupTask
    rw [List.find?_cons_of_pos _ (by simp [h])]
    rfl
  · rw [if_neg h]
    unfold lookupTask
    rw [List.find?_cons_of_neg _ (by simp [h])]

theorem lookupTask_erase_self (st : Registry) (tid : String) :
    lookupTask (eraseTask st tid) tid = none := by
  induction st with
  | nil => rfl
  | cons p st ih =>
    unfold eraseTask
    rw [List.filter_cons]
    by_cases hp : p.1 = tid
    · rw [if_neg (by simp [hp])]
      exact ih
    · rw [if_pos (by simp [hp]), lookupTask_cons, if_neg hp]
      exact ih

theorem lookupTask_erase_ne (st : Registry) (tid tid2 : String) (h : tid2 ≠ tid) :
    lookupTask (eraseTask st tid) tid2 = lookupTask st tid2 := by
  induction st with
  | nil => rfl
  | cons p st ih =>
    unfold eraseTask
    rw [List.filter_cons]
    by_cases hp : p.1 = tid
    · have hp2 : ¬ p.1 = tid2 := by rw [hp]; exact fun he => h he.symm
      rw [if_neg (by simp [hp]), lookupTask_cons, if_neg hp2]
      exact ih
    · rw [if_pos (by simp [hp]), lookupTask_cons, lookupTask_cons]
      by_cases hp2 : p.1 = tid2
      · rw [if_pos hp2, if_pos hp2]
      · rw [if_neg hp2, if_neg hp2]
        exact ih

theorem lookupTask_set_self (st : Registry) (tid : String) (l l0 : List Nat)
    (h : lookupTask st tid = some l0) :
    lookupTask (setTask st tid l) tid = some l := by
  induction st with
  | nil => cases h
  | cons p st ih =>
    rw [lookupTask_cons] at h
    unfold setTask
    simp only [List.map_cons]
    by_cases hp : p.1 = tid
    · rw [if_pos hp, lookupTask_cons, if_pos rfl]
    · rw [if_neg hp] at h
      rw [if_neg hp, lookupTask_cons, if_neg hp]
      exact ih h

theorem lookupTask_set_ne (st : Registry) (tid tid2 : String) (l : List Nat)
    (h : tid2 ≠ tid) :
    lookupTask (setTask st tid l) tid2 = lookupTask st tid2 := by
  induction st with
  | nil => rfl
  | cons p st ih =>
    unfold setTask
    simp only [List.map_cons]
    by_cases hp : p.1 = tid
    · have h1 : ¬ tid = tid2 := fun he => h he.symm
      have h2 : ¬ p.1 = tid2 := by rw [hp]; exact h1
      rw [if_pos hp, lookupTask_cons, lookupTask_cons, if_neg h1, if_neg h2]
      exact ih
    · rw [if_neg hp, lookupTask_cons, lookupTask_cons]
      by_cases hp2 : p.1 = tid2
      · rw [if_pos hp2, if_pos hp2]
      · rw [if_neg hp2, if_neg hp2]
        exact ih

theorem removeFirst_eq_none (l : List Nat) (w : Nat) (h : w ∉ l) :
    removeFirst l w = none := by
  induction l with
  | nil => rfl
  | cons x xs ih =>
    have hx : ¬ x = w := fun he => h (he ▸ List.mem_cons_self x xs)
    unfold removeFirst
    rw [if_neg (by simpa using hx), ih fun hw => h (List.mem_cons_of_mem x hw)]
    rfl

theorem removeFirst_append_skip (l1 l2 : List Nat) (w : Nat) (h : w ∉ l1) :
    removeFirst (l1 ++ w :: l2) w = some (l1 ++ l2) := by
  induction l1 with
  | nil =>
    rw [List.nil_append, List.nil_append]
    unfold removeFirst
    rw [if_pos (by simp)]
  | cons x xs ih =>
    have hx : ¬ x = w := fun he => h (he ▸ List.mem_cons_self x xs)
    rw [List.cons_append]
    unfold removeFirst
    rw [if_neg (by simpa using hx), ih fun hw => h (List.mem_cons_of_mem x hw)]
    rfl

theorem removeFirst_of_mem (l : List Nat) (w : Nat) (h : w ∈ l) :
    ∃ l2, removeFirst l w = some l2 ∧ l2.length + 1 = l.length := by
  induction l with
  | nil => cases h
  | cons x xs ih =>
    by_cases hx : x = w
    · refine ⟨xs, ?_, by simp⟩
      unfold removeFirst
      rw [if_pos (by simp [hx])]
    · have hw : w ∈ xs := by
        rcases List.mem_cons.mp h with h1 | h1
        · exact absurd h1.symm hx
        · exact h1
      obtain ⟨l2, h1, h2⟩ := ih hw
      refine ⟨x :: l2, ?_, by simp [← h2]⟩
      unfold removeFirst
      rw [if_neg (by simpa using hx), h1]
      rfl

/-- C10: the hub's `disconnect` is not idempotent: with subscribers of the
task still registered, removing a websocket that is not subscribed raises
`ValueError` (Python `list.remove` on a missing element); it is a silent
no-op only when the task id has no registered subscribers at all (and when
the websocket is subscribed, the registry actually changes, so that case is
not a no-op either). -/
theorem c10_disconnect_not_idempotent (st : Registry) (ws : Nat) (tid : String) :
    (lookupTask st tid = none → disconnect st ws tid = .ok st)
    ∧ (∀ l, lookupTask st tid = some l → ws ∉ l → disconnect st ws tid = .error ())
    ∧ (∀ l, lookupTask st tid = some l → ws ∈ l → disconnect st ws tid ≠ .ok st) := by
  refine ⟨?_, ?_, ?_⟩
  · intro h
    unfold disconnect
    rw [h]
  · intro l hl hmem
    unfold disconnect
    rw [hl]
    show removeStep st tid ws l = Except.error ()
    unfold removeStep
    rw [removeFirst_eq_none l ws hmem]
  · intro l hl hmem heq
    obtain ⟨l2, h1, h2⟩ := removeFirst_of_mem l ws hmem
    unfold disconnect at heq
    rw [hl] at heq
    have heq2 : removeStep st tid ws l = Except.ok st := heq
    unfold removeStep at heq2
    rw [h1] at heq2
    have hst : (if l2.isEmpty then eraseTask st tid else setTask st tid l2) = st :=
      Except.ok.inj heq2
    by_cases he : l2.isEmpty
    · rw [if_pos he] at hst
      have hnone := lookupTask_erase_self st tid
      rw [hst, hl] at hnone
      cases hnone
    · rw [if_neg he] at hst
      have hsome := lookupTask_set_self st tid l2 l hl
      rw [hst, hl] at hsome
      have hll : l = l2 := Option.some.inj hsome
      rw [hll] at h2
      omega

/-- C10 (witness): removing an unsubscribed websocket while the task still
has subscribers raises. -/
theorem c10_disconnect_witness : disconnect [("t", [1, 2])] 3 "t" = .error () :=
  (c10_disconnect_not_idempotent [("t", [1, 2])] 3 "t").2.1 [1, 2] rfl (by decide)

/-- C8: publishing to a task with zero subscribers is a no-op that never
raises; publishing to subscribers `l1 ++ [w] ++ l2` where exactly `w` fails
still delivers to all of `l1 ++ l2`, removes only `w` (the remaining
subscriber list, in order, is `l1 ++ l2`), prunes the task id when the
subscriber list becomes empty, and leaves every other task id untouched. -/
theorem c8_broadcast (st : Registry) (tid : String) (sendOk : Nat → Bool)
    (l1 l2 : List Nat) (w : Nat) :
    (lookupTask st tid = none → broadcastM st tid sendOk = .ok (st, []))
    ∧ (lookupTask st tid = some (l1 ++ w :: l2) →
        (∀ u ∈ l1 ++ l2, sendOk u = true) → sendOk w = false →
        broadcastM st tid sendOk
          = .ok (if (l1 ++ l2).isEmpty then eraseTask st tid
                 else setTask st tid (l1 ++ l2),
                 l1 ++ l2)
        ∧ lookupTask (if (l1 ++ l2).isEmpty then eraseTask st tid
              else setTask st tid (l1 ++ l2)) tid
            = (if (l1 ++ l2).isEmpty then none else some (l1 ++ l2))
        ∧ ∀ tid2, tid2 ≠ tid →
            lookupTask (if (l1 ++ l2).isEmpty then eraseTask st tid
                else setTask st tid (l1 ++ l2)) tid2
              = lookupTask st tid2) := by
  constructor
  · intro h
    unfold broadcastM
    rw [h]
  · intro hl hok hw
    have hnm1 : w ∉ l1 := fun hmem => by
      rw [hok w (List.mem_append_left l2 hmem)] at hw
      cases hw
    have hfilter1 : (l1 ++ w :: l2).filter sendOk = l1 ++ l2 := by
      rw [List.filter_append, List.filter_cons, hw]
      rw [List.filter_eq_self.mpr fun a ha => hok a (List.mem_append_left l2 ha),
        List.filter_eq_self.mpr fun a ha => hok a (List.mem_append_right l1 ha)]
      simp
    have hfilter2 : ((l1 ++ w :: l2).filter fun u => !(sendOk u)) = [w] := by
      rw [List.filter_append, List.filter_cons]
      rw [List.filter_eq_nil_iff.mpr fun a ha => by
          simp [hok a (List.mem_append_left l2 ha)],
        List.filter_eq_nil_iff.mpr fun a ha => by
          simp [hok a (List.mem_append_right l1 ha)]]
      simp [hw]
    have hdisc : disconnect st w tid
        = .ok (if (l1 ++ l2).isEmpty then eraseTask st tid
               else setTask st tid (l1 ++ l2)) := by
      unfold disconnect
      rw [hl]
      show removeStep st tid w (l1 ++ w :: l2)
          = .ok (if (l1 ++ l2).isEmpty then eraseTask st tid
                 else setTask st tid (l1 ++ l2))
      unfold removeStep
      rw [removeFirst_append_skip l1 l2 w hnm1]
    refine ⟨?_, ?_, ?_⟩
    · unfold broadcastM
      rw [hl]
      show deliverAll st tid sendOk (l1 ++ w :: l2) = _
      unfold deliverAll
      simp only [hfilter1, hfilter2, List.foldlM_cons, List.foldlM_nil, hdisc]
      rfl
    · by_cases he : (l1 ++ l2).isEmpty
      · rw [if_pos he, if_pos he]
        exact lookupTask_erase_self st tid
      · rw [if_neg he, if_neg he]
        exact lookupTask_set_self st tid (l1 ++ l2) (l1 ++ w :: l2) hl
    · intro tid2 h2
      by_cases he : (l1 ++ l2).isEmpty
      · rw [if_pos he]
        exact lookupTask_erase_ne st tid tid2 h2
      · rw [if_neg he]
        exact lookupTask_set_ne st tid tid2 (l1 ++ l2) h2

/-- C8 (witness): three subscribers of which number `2` fails: `1` and `3`
still receive the event and only `2` is removed. -/
theorem c8_broadcast_witness :
    broadcastM [("t", [1, 2, 3])] "t" (fun u => u != 2)
      = .ok ([("t", [1, 3])], [1, 3]) := by
  have h := ((c8_broadcast [("t", [1, 2, 3])] "t" (fun u => u != 2) [1] [3] 2).2
    rfl (by decide) (by decide)).1
  exact h.trans (by rfl)

/-! ## C4: agent persistence failure -/

/-- C4 (counterexample): the generation step succeeds with improvement
`40%`, but the completed-row insert raises; contrary to the claim, the
returned descriptor does not carry status `completed` and the computed
improvement — the agent's catch-all handler returns a `failed` descriptor
with no improvement key. -/
theorem c4_persistence_failure_counterexample :
    (optimize "agent-0" stratDemo "code" oracleInsFail).1.status = "failed"
    ∧ (optimize "agent-0" stratDemo "code" oracleInsFail).1.status ≠ "completed"
    ∧ (optimize "agent-0" stratDemo "code" oracleInsFail).1.improvement = none
    ∧ parseImprovement (.vstr "40%") = 40 :=
  ⟨by decide, by decide, by decide, by decide⟩

/-- C4 (amended): a failure of the completed-row insert is caught by the
agent's catch-all `except`: the returned descriptor has status `failed`,
carries the persistence error message and no improvement, the completed row
is not persisted, and a failed row is persisted best-effort instead (the
in-memory completed result is not reported upstream). -/
theorem c4_persistence_failure_fails_agent
    (aid : String) (strat : AgentStrategy) (code : String) (o : AgentOracle)
    (gv : PyVal) (d : List (String × PyVal))
    (hg : o.gem (agentPrompt strat code o.patterns) = .ok gv)
    (hn : normalizeGem gv o.rendered = .vdict d)
    (hf : o.insCompletedOk = false) :
    (optimize aid strat code o).1.status = "failed"
    ∧ (optimize aid strat code o).1.errMsg = some o.insCompletedErr
    ∧ (optimize aid strat code o).1.improvement = none
    ∧ ((optimize aid strat code o).2.any isInsCompleted) = false
    ∧ (o.insFailedOk = true → ((optimize aid strat code o).2.any isInsFailed) = true) := by
  have hopt : optimize aid strat code o
      = failReturn aid strat o.insCompletedErr
          [.searchCall (String.mk (code.data.take 500)) strat.category,
           .gemCall (agentPrompt strat code o.patterns)] o := by
    simp only [optimize, hg, hn, hf]
    rfl
  rw [hopt]
  refine ⟨rfl, rfl, rfl, ?_, ?_⟩
  · cases hio : o.insFailedOk <;>
      simp [failReturn, isInsCompleted, hio]
  · intro hio
    simp [failReturn, isInsFailed, hio]

/-- C4 (witness): the concrete insert-failure run returns the persistence
error in a failed descriptor. -/
theorem c4_persistence_failure_fails_agent_witness :
    (optimize "agent-0" stratDemo "code" oracleInsFail).1.errMsg
      = some "db connection lost" := by
  have h := (c4_persistence_failure_fails_agent "agent-0" stratDemo "code" oracleInsFail
    (.vdict [("improvement", .vstr "40%"), ("optimized_code", .vstr "SELECT 1"),
             ("explanation", .vstr "added index")])
    [("improvement", .vstr "40%"), ("optimized_code", .vstr "SELECT 1"),
     ("explanation", .vstr "added index")]
    rfl rfl rfl).2.1
  exact h.trans (by rfl)

end ParallelProof
